import Mathlib

/-!
Verification of the DrugHunter molecule-extractor core against its
natural-language specification.

The Python source is shallowly embedded: pure functions become Lean
functions, Python exceptions become `Except String`, the external
collaborators (recognizers, validator, PDF conversion and page-level
segmentation) become function parameters constrained by their contracts,
`None`/`True`/`False` validation entries become `Option Bool`, and the
dict-of-lists result shape becomes an association list of named columns.
-/

namespace DrugHunter

/-- Segment images are opaque to the pipeline; an image is identified by a tag. -/
abbrev Image := Nat

/-- A Python value appearing inside a segmentation-result tuple.  Tuples are
modelled as `List PyVal` so that their arity is data, as it is in Python. -/
inductive PyVal
  | pstr (s : String)
  | pnat (n : Nat)
  | pimg (i : Image)
deriving DecidableEq, Repr

/-- Python `==` between a list object and a string object: always `False`,
whatever the contents (different types never compare equal).  Used to embed
the comparison `recognition_results_molscribe['inchikey'] == ''` in
drughunter_extractor.py line 127, whose left operand is the whole list. -/
def pyEqListStr (_ : List String) (_ : String) : Bool := false

/-- Python `!=` between a list object and a string object: always `True`.
Embeds `recognition_results_decimer['inchikey'] != ''` at the same line. -/
def pyNeListStr (l : List String) (s : String) : Bool := !(pyEqListStr l s)

/-- Python `list.count(True)` over a validation list holding True/False/None. -/
def countPyTrue (v : List (Option Bool)) : Nat :=
  (v.filter (fun x => x == some true)).length

/-- Python `list.count(False)` over a validation list. -/
def countPyFalse (v : List (Option Bool)) : Nat :=
  (v.filter (fun x => x == some false)).length

/-- The percentage printed by the pipeline:
`validation.count(True)/len(validation)*100` (drughunter_extractor.py
lines 107 and 138; the subsequent `round(·, 2)` only affects display). -/
def reportedRate (v : List (Option Bool)) : ℚ :=
  (countPyTrue v : ℚ) / (v.length : ℚ) * 100

/-! ## Python string splitting

Lean's `String.splitOn` is defined by well-founded recursion over byte
positions and does not reduce inside the kernel, so Python's
`str.split(sep)` is re-implemented here over the character list of the
string: scan left to right, breaking at each non-overlapping occurrence
of the (non-empty) separator, exactly as CPython does. -/

/-- Greedy left-to-right split of `s` at occurrences of the non-empty
separator `c :: sep`; `acc` holds the current chunk reversed. -/
def pySplitAux (c : Char) (sep : List Char) : List Char → List Char → List (List Char)
  | [], acc => [acc.reverse]
  | d :: rest, acc =>
    if (c :: sep).isPrefixOf (d :: rest) then
      acc.reverse :: pySplitAux c sep (rest.drop sep.length) []
    else
      pySplitAux c sep rest (d :: acc)
termination_by l _ => l.length
decreasing_by
  · simp only [List.length_drop, List.length_cons]; omega
  · simp only [List.length_cons]; omega

/-- Python `s.split(sep)` for a non-empty separator (callers that could
pass an empty separator raise `ValueError` before reaching this). -/
def pySplit (sep s : String) : List String :=
  match sep.data with
  | [] => [s]
  | c :: tl => (pySplitAux c tl s.data []).map String.mk

/-- Substring occurrence test on character lists: does `needle` occur
contiguously in the list?  The empty needle occurs in every list. -/
def occursIn (needle : List Char) : List Char → Bool
  | [] => needle.isEmpty
  | d :: rest => needle.isPrefixOf (d :: rest) || occursIn needle rest

/-- Python `separator in text_line` membership test; the empty string is a
member of every string. -/
def pyIn (sep line : String) : Bool :=
  occursIn sep.data line.data

/-- The inner scan of `get_information_from_descriptions` (lines 38-41):
walk the lines in order; on the first line containing the separator run
`text_line.split(separator)` and unpack into exactly two names, then break.
`split` raises `ValueError` on an empty separator, and the 2-tuple
unpacking raises `ValueError` when the separator occurs more than once. -/
def scanLines (sep : String) : List String → Except String (String × String)
  | [] => .ok ("", "")
  | line :: rest =>
    if pyIn sep line then
      if sep = "" then
        .error "ValueError: empty separator"
      else
        match pySplit sep line with
        | [a, b] => .ok (a, b)
        | _ => .error "ValueError: too many values to unpack (expected 2)"
    else scanLines sep rest

/-- One iteration of the outer loop of `get_information_from_descriptions`
(lines 35-50): scan the `\n`-split lines for the separator, then apply the
fallback whenever the proposed name is still the empty string. -/
def getInfoOne (sep descr : String) : Except String (String × String) := do
  let (name, target) ← scanLines sep (pySplit "\n" descr)
  if name = "" then
    pure
      (if (pySplit "\n" descr).length ≥ 1 then (pySplit "\n" descr).getD 0 "" else name,
        if (pySplit "\n" descr).length ≥ 2 then (pySplit "\n" descr).getD 1 "" else target)
  else
    pure (name, target)

/-- The columns returned by `get_information_from_descriptions`. -/
structure DescInfo where
  description : List String
  proposed_name : List String
  proposed_target : List String
deriving DecidableEq, Repr

/-- The `for description in descriptions` loop of
`get_information_from_descriptions`, collecting one (name, target) pair per
description and aborting on the first `ValueError`. -/
def getInfoList (sep : String) : List String → Except String (List (String × String))
  | [] => .ok []
  | d :: rest => do
    let p ← getInfoOne sep d
    let ps ← getInfoList sep rest
    pure (p :: ps)

/-- `get_information_from_descriptions(descriptions, separator)`
(drughunter_extractor.py lines 15-57).  A `ValueError` escaping the loop
aborts the whole call, hence the `Except`. -/
def getInformationFromDescriptions (descriptions : List String) (sep : String) :
    Except String DescInfo := do
  let pairs ← getInfoList sep descriptions
  pure ⟨descriptions, pairs.map (·.1), pairs.map (·.2)⟩

/-! Spec-side description of the parser, written from the claim's words:
the first line containing the separator is split at its *first* occurrence
into name and target; if no line contains it, line 0 is the name and
line 1 (when present) the target. -/

/-- Interleave a separator between the parts of a split (the inverse of
`pySplit` on its tail), used to express "everything after the first
occurrence of the separator". -/
def joinWith (sep : String) : List String → String
  | [] => ""
  | [a] => a
  | a :: b :: rest => a ++ sep ++ joinWith sep (b :: rest)

/-- Split a string at the first occurrence of a non-empty separator;
identity-with-empty-target when the separator does not occur. -/
def splitAtFirst (line sep : String) : String × String :=
  match pySplit sep line with
  | a :: b :: rest => (a, joinWith sep (b :: rest))
  | _ => (line, "")

/-- The name/target pair the claim describes for one description, amended
with the fallback-on-empty-name behaviour the code actually has. -/
def specNameTarget (sep descr : String) : String × String :=
  match
    (match (pySplit "\n" descr).find? (fun l => pyIn sep l) with
      | some l => splitAtFirst l sep
      | none => ("", "")) with
  | (n, t) =>
    if n = "" then
      ((pySplit "\n" descr).getD 0 "",
        if (pySplit "\n" descr).length ≥ 2 then (pySplit "\n" descr).getD 1 "" else t)
    else (n, t)

/-! ## Segmenter (`segmentation/segment_pdf.py`)

The two external collaborators of `segment_pdf` are replaced by their
outcomes: for each input PDF, `pages = none` stands for
`convert_from_bytes` raising (the `except` branch logs and continues),
and `pages = some pgs` gives, per page, the list of segment images that
`segment_chemical_structures` finds on it. -/

/-- One input PDF together with the outcome of its conversion and of the
page-level segmentation collaborator. -/
structure PdfInput where
  filename : String
  pages : Option (List (List Image))
deriving DecidableEq, Repr

/-- The tuples appended per page by segment_pdf.py lines 58-64:
`sub_segment_list.append((filename, page_num, image))` for each segment
found on the page (the `enumerate` index is computed but not stored). -/
def pdfRows (filename : String) : Nat → List (List Image) → List (List PyVal)
  | _, [] => []
  | pageNum, segs :: rest =>
    segs.map (fun seg => [PyVal.pstr filename, PyVal.pnat pageNum, PyVal.pimg seg])
      ++ pdfRows filename (pageNum + 1) rest

/-- `segment_list` as accumulated over all PDFs (conversion failures are
logged and skipped, their contribution is empty). -/
def segmentPdfRows : List PdfInput → List (List PyVal)
  | [] => []
  | pdf :: rest =>
    (match pdf.pages with
     | none => []
     | some pgs => pdfRows pdf.filename 0 pgs) ++ segmentPdfRows rest

/-- `segment_pdf` (lines 8-82): returns the accumulated segment list and
text list, but first prints a per-segment timing statistic whose divisor is
`len(segment_list)` (line 81) — a `ZeroDivisionError` when no segment was
produced.  Text extraction is an external collaborator; with `get_text`
off, `text_list` stays empty. -/
def segmentPdf (pdfs : List PdfInput) : Except String (List (List PyVal) × List String) :=
  let rows := segmentPdfRows pdfs
  if rows.length = 0 then
    .error "ZeroDivisionError: division by zero"
  else
    .ok (rows, [])

/-- The orchestrator's positional unpacking of one segmentation tuple into
`source_filename, page_number, segment_number, segment`
(drughunter_extractor.py lines 88-93): succeeds only on 4-tuples. -/
def unpack4 (row : List PyVal) : Except String (PyVal × PyVal × PyVal × PyVal) :=
  match row with
  | [a, b, c, d] => .ok (a, b, c, d)
  | _ => .error "ValueError: cannot unpack tuple into 4 values"

/-! ## Reconciliation pipeline (`extract_molecules_from_pdfs`)

The orchestrator destructures each segmentation result into the four
fields `(source, page number, segment number, segment)`, so its input is
typed here as the 4-tuples it requires; the arity mismatch with the
actual segmenter is the subject of its own claim.  The recognizers and
the identity validator are external services and enter as function
parameters; the dict returned by a recognizer is the `RecResults`
column triple. -/

/-- One segmentation result as the orchestrator consumes it. -/
structure SegResult where
  source : String
  pageNumber : Nat
  segmentNumber : Nat
  segment : Image
deriving DecidableEq, Repr

/-- The dict of lists returned by `recognize_segments` (either engine):
columns `smiles`, `inchi`, `inchikey`. -/
structure RecResults where
  smiles : List String
  inchi : List String
  inchikey : List String
deriving DecidableEq, Repr

/-- `[index for index, validation_result in enumerate(validation) if
validation_result is False]` (line 112), with `i` the enumeration
counter. -/
def falseIndicesFrom (i : Nat) : List (Option Bool) → List Nat
  | [] => []
  | v :: rest =>
    if v == some false then i :: falseIndicesFrom (i + 1) rest
    else falseIndicesFrom (i + 1) rest

/-- The `index_list` of invalidated segments. -/
def falseIndices (validation : List (Option Bool)) : List Nat :=
  falseIndicesFrom 0 validation

/-- `[segment for index, segment in enumerate(segments) if index in
index_list]` (line 116), with `i` the enumeration counter. -/
def selectByIndexFrom (idxs : List Nat) (i : Nat) : List Image → List Image
  | [] => []
  | s :: rest =>
    if idxs.contains i then s :: selectByIndexFrom idxs (i + 1) rest
    else selectByIndexFrom idxs (i + 1) rest

/-- The segments handed to the complement recognizer. -/
def selectByIndex (idxs : List Nat) (segments : List Image) : List Image :=
  selectByIndexFrom idxs 0 segments

/-- The mutable state of the merge loop: molscribe's chemistry columns and
its validation column, updated in place. -/
structure MergeState where
  engine : RecResults
  validation : List (Option Bool)
deriving DecidableEq, Repr

/-- One iteration of the merge loop (lines 125-129).  The condition is the
source's `validation_result is True or
(recognition_results_decimer['inchikey'] != '' and
recognition_results_molscribe['inchikey'] == '')`, whose two inner
comparisons are between a whole list and the empty string.  On overwrite,
`recognition_results_molscribe[key][index_list[index]] =
recognition_results_decimer[key][index]` for the four keys; `index_list`
always has one entry per decimer result when the collaborator contracts
hold, so the out-of-range `IndexError` case is left as a no-op. -/
def mergeStep (dec : RecResults) (idxList : List Nat)
    (st : MergeState) (j : Nat) (vr : Option Bool) : MergeState :=
  if vr == some true || (pyNeListStr dec.inchikey "" && pyEqListStr st.engine.inchikey "") then
    match idxList.get? j with
    | some i =>
      { engine :=
          { smiles := st.engine.smiles.set i (dec.smiles.getD j "")
            inchi := st.engine.inchi.set i (dec.inchi.getD j "")
            inchikey := st.engine.inchikey.set i (dec.inchikey.getD j "") }
        validation := st.validation.set i vr }
    | none => st
  else st

/-- `for index, validation_result in enumerate(recognition_results_decimer
['validation'])` driving `mergeStep`, with `j` the enumeration counter. -/
def mergeLoopFrom (dec : RecResults) (idxList : List Nat)
    (j : Nat) : List (Option Bool) → MergeState → MergeState
  | [], st => st
  | vr :: rest, st =>
    mergeLoopFrom dec idxList (j + 1) rest (mergeStep dec idxList st j vr)

/-- The whole complement merge of lines 125-129. -/
def mergeLoop (dec : RecResults) (decVal : List (Option Bool)) (idxList : List Nat)
    (mol : RecResults) (molVal : List (Option Bool)) : MergeState :=
  mergeLoopFrom dec idxList 0 decVal ⟨mol, molVal⟩

/-! ## The dict-of-lists record table -/

/-- One column of the `extraction_results` dict. -/
inductive Col
  | strs (l : List String)
  | nats (l : List Nat)
  | vals (l : List (Option Bool))
deriving DecidableEq, Repr

/-- Number of records a column holds. -/
def colLength : Col → Nat
  | .strs l => l.length
  | .nats l => l.length
  | .vals l => l.length

/-- The `extraction_results` dict: insertion-ordered keys, one column each. -/
abbrev Table := List (String × Col)

/-- Write one key of a Python dict: replace in place when present,
append otherwise. -/
def setKey (t : Table) (k : String) (v : Col) : Table :=
  if t.any (fun p => p.1 == k) then
    t.map (fun p => if p.1 == k then (k, v) else p)
  else t ++ [(k, v)]

/-- Python `dict.update` over a list of key/column pairs. -/
def dictUpdate (t : Table) : List (String × Col) → Table
  | [] => t
  | (k, v) :: rest => dictUpdate (setKey t k v) rest

/-- Look a column up by key. -/
def getCol (t : Table) (k : String) : Option Col :=
  (t.find? (fun p => p.1 == k)).map (·.2)

/-- The string column at a key (empty when absent or differently typed). -/
def getStrCol (t : Table) (k : String) : List String :=
  match getCol t k with
  | some (.strs l) => l
  | _ => []

/-- The validation column at a key (empty when absent or differently typed). -/
def getValCol (t : Table) (k : String) : List (Option Bool) :=
  match getCol t k with
  | some (.vals l) => l
  | _ => []

/-! ## Deduplicator -/

/-- Modelled from the spec: `export/remove_duplicates.py` is not under
src/, so the Deduplicator follows §4.4 of the spec: two records are
duplicates iff they share the same non-empty `identity_key`; among
duplicates the `validated == true` one is kept, and when several or none
are validated the first encountered is kept; records with empty
`identity_key` are never deduplicated against each other.  `keepRow`
decides whether record `i` survives. -/
def keepRow (keys : List String) (vals : List (Option Bool)) (i : Nat) : Bool :=
  let k := keys.getD i ""
  if k = "" then true
  else
    let group := (List.range keys.length).filter (fun j => keys.getD j "" == k)
    match group.filter (fun j => vals.getD j none == some true) with
    | [j] => i == j
    | _ => group.head? == some i

/-- Modelled from the spec: the surviving record positions, in first-seen
order. -/
def keptIndices (keys : List String) (vals : List (Option Bool)) : List Nat :=
  (List.range keys.length).filter (keepRow keys vals)

/-- Restrict a column to the surviving positions. -/
def filterRows (keep : List Nat) : Col → Col
  | .strs l => .strs (keep.filterMap (l.get? ·))
  | .nats l => .nats (keep.filterMap (l.get? ·))
  | .vals l => .vals (keep.filterMap (l.get? ·))

/-- Modelled from the spec: `remove_duplicates(extraction_results)` keeps
the dict shape (every key survives) and drops duplicate records by
position, per §4.4. -/
def removeDuplicates (t : Table) : Table :=
  let keys := getStrCol t "inchikey"
  let vals := getValCol t "validation"
  let keep := keptIndices keys vals
  t.map (fun p => (p.1, filterRows keep p.2))

/-! ## The orchestrator -/

/-- What the run does at its end (drughunter_extractor.py lines 140-143):
hand the table to the Tabular Sink, or print the no-op report. -/
inductive SinkAction
  | exportCsv
  | printNothingExtracted
deriving DecidableEq, Repr

/-- Everything observable about one `extract_molecules_from_pdfs` run. -/
structure RunResult where
  segments : List Image
  primary : RecResults
  primaryVal : List (Option Bool)
  primaryRateShown : Option ℚ
  candidates : List Nat
  decimerCalled : Bool
  decimerSegments : List Image
  merged : MergeState
  preDedup : Table
  finalTable : Table
  finalRateShown : Option ℚ
  action : SinkAction

/-- `extract_molecules_from_pdfs` (drughunter_extractor.py lines 60-143)
from the point where the segmentation results are unpacked.  The input is
the list of 4-field segmentation results the orchestrator destructures;
`recMol`, `recDec` and `validate` are the external recognition and
validation services.  Text extraction is off (`get_text=False`, the
default of `main` and of `extract_molecules_of_the_month`), so no
description columns are added. -/
def extractMoleculesFromPdfs (segResults : List SegResult)
    (recMol recDec : List Image → RecResults)
    (validate : List String → List (Option Bool))
    (decimerComplement : Bool) : RunResult :=
  let sources := segResults.map (·.source)
  let pages := segResults.map (·.pageNumber)
  let segNums := segResults.map (·.segmentNumber)
  let segments := segResults.map (·.segment)
  let mol := recMol segments
  let molVal := validate mol.inchikey
  let primaryRateShown := if molVal.isEmpty then none else some (reportedRate molVal)
  let idxList := falseIndices molVal
  let step :=
    if decimerComplement then
      if idxList.isEmpty then (false, ([] : List Image), (⟨mol, molVal⟩ : MergeState))
      else
        let decSegs := selectByIndex idxList segments
        let dec := recDec decSegs
        let decVal := validate dec.inchikey
        (true, decSegs, mergeLoop dec decVal idxList mol molVal)
    else (false, ([] : List Image), (⟨mol, molVal⟩ : MergeState))
  let merged := step.2.2
  let baseTable : Table :=
    [("source", .strs sources), ("page number", .nats pages),
     ("segment number", .nats segNums)]
  let preDedup := dictUpdate baseTable
    [("smiles", .strs merged.engine.smiles), ("inchi", .strs merged.engine.inchi),
     ("inchikey", .strs merged.engine.inchikey), ("validation", .vals merged.validation)]
  let finalTable := removeDuplicates preDedup
  let finalVal := getValCol finalTable "validation"
  let finalRateShown := if finalVal.isEmpty then none else some (reportedRate finalVal)
  let action :=
    if finalTable.isEmpty then SinkAction.printNothingExtracted else SinkAction.exportCsv
  { segments := segments
    primary := mol
    primaryVal := molVal
    primaryRateShown := primaryRateShown
    candidates := idxList
    decimerCalled := step.1
    decimerSegments := step.2.1
    merged := merged
    preDedup := preDedup
    finalTable := finalTable
    finalRateShown := finalRateShown
    action := action }

/-! ## `extract_bounds` and Python `int()` -/

/-- The whitespace characters Python's `int(str)` strips. -/
def isPySpace (c : Char) : Bool :=
  c == ' ' || c == '\t' || c == '\n' || c == '\r' || c == '\x0b' || c == '\x0c'

/-- Strip leading and trailing whitespace from a character list. -/
def stripWs (l : List Char) : List Char :=
  ((l.dropWhile isPySpace).reverse.dropWhile isPySpace).reverse

/-- After the first digit, `int()` accepts digits with single underscores
strictly between digits. -/
def intDigitsRest : List Char → Bool
  | [] => true
  | '_' :: c :: rest => c.isDigit && intDigitsRest rest
  | c :: rest => c.isDigit && intDigitsRest rest

/-- A non-empty digit body for `int()`: a digit followed by digits and
digit-separating underscores. -/
def pyIntBody : List Char → Bool
  | [] => false
  | c :: rest => c.isDigit && intDigitsRest rest

/-- Decimal value of a digit list. -/
def digitsVal (l : List Char) : Nat :=
  l.foldl (fun a c => a * 10 + (c.toNat - '0'.toNat)) 0

/-- Python `int(s)`: strip whitespace, one optional sign, then a valid
digit body (ASCII digits; the separator underscores are dropped for the
value).  `none` models the `ValueError` of an invalid literal. -/
def pyInt (s : String) : Option Int :=
  let l := stripWs s.data
  match l with
  | '+' :: rest =>
    if pyIntBody rest then some (digitsVal (rest.filter (· != '_'))) else none
  | '-' :: rest =>
    if pyIntBody rest then some (-(digitsVal (rest.filter (· != '_')) : Int)) else none
  | _ =>
    if pyIntBody l then some (digitsVal (l.filter (· != '_'))) else none

/-- `extract_bounds` (drughunter_extractor.py lines 178-207).  The first
`try` returns `(n, n)` for a single in-range number and raises otherwise;
the bare `except` then tries `map(int, input_string.split('-'))` unpacked
into two bounds, re-raising every failure of that branch — including its
own out-of-range `ValueError` — as the final user-facing `ValueError`. -/
def extractBounds (s : String) : Except String (Int × Int) :=
  let firstTry : Except String (Int × Int) :=
    match pyInt s with
    | some n =>
      if 1 ≤ n ∧ n ≤ 12 then .ok (n, n)
      else .error "Invalid input format or out-of-range values."
    | none => .error "ValueError: invalid literal for int()"
  match firstTry with
  | .ok r => .ok r
  | .error _ =>
    match (pySplit "-" s).map pyInt with
    | [some lo, some hi] =>
      if 1 ≤ lo ∧ lo ≤ 12 ∧ 1 ≤ hi ∧ hi ≤ 12 ∧ lo < hi then .ok (lo, hi)
      else .error "Invalid input format. Please enter two numbers separated by a dash in the range of 1 to 12, with the first being smaller than the latter. Or a single number"
    | _ => .error "Invalid input format. Please enter two numbers separated by a dash in the range of 1 to 12, with the first being smaller than the latter. Or a single number"

/-- The claim's "single integer in 1..12". -/
def isValidSingleMonth (s : String) : Bool :=
  match pyInt s with
  | some n => if 1 ≤ n ∧ n ≤ 12 then true else false
  | none => false

/-- The claim's "two dash-separated integers within 1..12 forming a valid
range" (the code requires the first to be strictly smaller). -/
def isValidMonthRange (s : String) : Bool :=
  match (pySplit "-" s).map pyInt with
  | [some lo, some hi] =>
    if 1 ≤ lo ∧ lo ≤ 12 ∧ 1 ≤ hi ∧ hi ≤ 12 ∧ lo < hi then true else false
  | _ => false

/-! ## The CLI (`main`) -/

/-- The parsed argparse namespace. -/
structure Args where
  year : Option Int
  month : Option String
  url : Option String
  segDir : Option String
  decimerOff : Bool
  text : Bool
  direction : String
  separator : String

/-- Python truthiness of an optional string (absent and empty are falsy). -/
def truthyStr : Option String → Bool
  | none => false
  | some s => !(s == "")

/-- Python truthiness of an optional int (absent and zero are falsy). -/
def truthyInt : Option Int → Bool
  | none => false
  | some n => !(n == 0)

/-- Digit counter with an explicit fuel argument (structural recursion so
that concrete values reduce in the kernel); the fuel only needs to exceed
the digit count, which `decDigits` guarantees by passing `n` itself. -/
def decDigitsAux : Nat → Nat → Nat
  | _, 0 => 0
  | 0, _ + 1 => 1
  | fuel + 1, n + 1 => decDigitsAux fuel ((n + 1) / 10) + 1

/-- Number of decimal digits of `n` (0 for `n = 0`, the zero case being
handled by the caller `pyStrLenInt`). -/
def decDigits (n : Nat) : Nat := decDigitsAux n n

/-- Python `len(str(n))` for an integer. -/
def pyStrLenInt (n : Int) : Nat :=
  (if n < 0 then 1 else 0) + (if n.natAbs = 0 then 1 else decDigits n.natAbs)

/-- The externally visible actions `main` can take, in program order.
Document downloads and the recognition work happen only inside
`download_pdf`, `extract_molecules_from_pdfs` and
`extract_molecules_of_the_month`, which these events stand for. -/
inductive Event
  | warnBothOptions
  | downloadPdf (url : String) (downloadAll : Bool)
  | extractFromPdfs
  | printNoYear
  | printBadYearFormat
  | printYearTooEarly
  | extractMOTM (year lo hi : Int)
deriving DecidableEq, Repr

/-- `main` (drughunter_extractor.py lines 210-269) as the ordered list of
externally visible actions, paired with the uncaught exception, if any,
that aborts the run (the `ValueError` from `extract_bounds` is never
caught). -/
def pyMain (a : Args) : List Event × Option String :=
  let ev0 : List Event :=
    if truthyStr a.url && truthyInt a.year then [.warnBothOptions] else []
  if truthyStr a.url then
    (ev0 ++ [.downloadPdf (a.url.getD "") false, .extractFromPdfs], none)
  else if !truthyInt a.year then
    (ev0 ++ [.printNoYear], none)
  else if pyStrLenInt (a.year.getD 0) ≠ 4 then
    (ev0 ++ [.printBadYearFormat], none)
  else if a.year.getD 0 < 2020 then
    (ev0 ++ [.printYearTooEarly], none)
  else if truthyStr a.month then
    match extractBounds (a.month.getD "") with
    | .error e => (ev0, some e)
    | .ok (lo, hi) => (ev0 ++ [.extractMOTM (a.year.getD 0) lo hi], none)
  else
    (ev0 ++ [.extractMOTM (a.year.getD 0) 1 12], none)

/-! # Theorems -/

/-! ## C9 — zero segments raises ZeroDivisionError -/

/-- C9: for every input list of PDFs that yields zero segments in total
(for example when every document fails to convert, or no chemical
structures are found on any page), `segment_pdf` raises a
`ZeroDivisionError` in its final per-segment timing statistic instead of
returning an empty segment list to the caller. -/
theorem c9_zero_segments_raises (pdfs : List PdfInput)
    (h : segmentPdfRows pdfs = []) :
    segmentPdf pdfs = .error "ZeroDivisionError: division by zero" := by
  simp [segmentPdf, h]

/-- Witness for C9: one unconvertible PDF and one whose pages hold no
structures yield zero segments, and `segment_pdf` raises. -/
theorem c9_zero_segments_raises_witness :
    segmentPdfRows [⟨"a.pdf", none⟩, ⟨"b.pdf", some [[], []]⟩] = [] ∧
    segmentPdf [⟨"a.pdf", none⟩, ⟨"b.pdf", some [[], []]⟩] =
      .error "ZeroDivisionError: division by zero" :=
  ⟨rfl, c9_zero_segments_raises _ rfl⟩

/-! ## C3 — segmenter tuple arity -/

/-- Every tuple `segment_pdf` appends has exactly the three fields
`(filename, page_num, image)`. -/
theorem mem_pdfRows_length {f : String} {k : Nat} {pgs : List (List Image)}
    {row : List PyVal} (h : row ∈ pdfRows f k pgs) : row.length = 3 := by
  induction pgs generalizing k with
  | nil => simp [pdfRows] at h
  | cons pg rest ih =>
    simp only [pdfRows, List.mem_append, List.mem_map] at h
    rcases h with ⟨seg, _, rfl⟩ | h
    · rfl
    · exact ih h

/-- Every row of the accumulated segment list has three fields. -/
theorem mem_segmentPdfRows_length {pdfs : List PdfInput} {row : List PyVal}
    (h : row ∈ segmentPdfRows pdfs) : row.length = 3 := by
  induction pdfs with
  | nil => simp [segmentPdfRows] at h
  | cons p rest ih =>
    simp only [segmentPdfRows, List.mem_append] at h
    rcases h with h | h
    · cases hp : p.pages with
      | none => rw [hp] at h; simp at h
      | some pgs => rw [hp] at h; exact mem_pdfRows_length h
    · exact ih h

/-- A three-field tuple cannot be unpacked into four names. -/
theorem unpack4_of_length_three {row : List PyVal} (h : row.length = 3) :
    unpack4 row = .error "ValueError: cannot unpack tuple into 4 values" := by
  rcases row with _ | ⟨a, _ | ⟨b, _ | ⟨c, _ | ⟨d, rest⟩⟩⟩⟩ <;> simp_all [unpack4]

/-- C3 (code bug): `segment_pdf` emits `(filename, page_num, image)`
3-tuples — the per-page `enumerate` index is computed but never stored —
so the orchestrator's positional unpacking into
`(source, page number, segment number, segment)` fails on every row. -/
theorem c3_segment_tuples_not_unpackable (pdfs : List PdfInput) (row : List PyVal)
    (h : row ∈ segmentPdfRows pdfs) :
    row.length = 3 ∧
    unpack4 row = .error "ValueError: cannot unpack tuple into 4 values" :=
  ⟨mem_segmentPdfRows_length h, unpack4_of_length_three (mem_segmentPdfRows_length h)⟩

/-- Witness for C3: one PDF with one page holding one structure produces
the 3-tuple `("june.pdf", 0, image 7)`, which the orchestrator cannot
unpack. -/
theorem c3_segment_tuples_not_unpackable_witness :
    [PyVal.pstr "june.pdf", PyVal.pnat 0, PyVal.pimg 7]
        ∈ segmentPdfRows [⟨"june.pdf", some [[7]]⟩] ∧
    ([PyVal.pstr "june.pdf", PyVal.pnat 0, PyVal.pimg 7].length = 3 ∧
      unpack4 [PyVal.pstr "june.pdf", PyVal.pnat 0, PyVal.pimg 7] =
        .error "ValueError: cannot unpack tuple into 4 values") :=
  ⟨by simp [segmentPdfRows, pdfRows],
   c3_segment_tuples_not_unpackable [⟨"june.pdf", some [[7]]⟩] _
     (by simp [segmentPdfRows, pdfRows])⟩

/-! ## C10 — URL and year both supplied -/

/-- C10: when both a URL and a year are supplied, `main` prints the
"Please use only one option." warning but does not abort: it processes
the URL target (single-PDF download, then extraction) and the year and
month range are silently ignored — no molecules-of-the-month work
happens and no month parsing can raise. -/
theorem c10_url_and_year_warns_then_processes_url (a : Args)
    (hu : truthyStr a.url = true) (hy : truthyInt a.year = true) :
    (pyMain a).1 =
      [Event.warnBothOptions, Event.downloadPdf (a.url.getD "") false,
        Event.extractFromPdfs] ∧
    (pyMain a).2 = none ∧
    ∀ y lo hi, Event.extractMOTM y lo hi ∉ (pyMain a).1 := by
  refine ⟨?_, ?_, ?_⟩ <;> simp [pyMain, hu, hy]

/-- Witness for C10: `--url http://x --year 2023 --month 99x` still
processes the URL; the malformed month is never parsed. -/
theorem c10_url_and_year_witness :
    (pyMain ⟨some 2023, some "99x", some "http://x", none, false, false,
        "right", "|"⟩).1 =
      [Event.warnBothOptions, Event.downloadPdf "http://x" false,
        Event.extractFromPdfs] ∧
    (pyMain ⟨some 2023, some "99x", some "http://x", none, false, false,
        "right", "|"⟩).2 = none :=
  ⟨(c10_url_and_year_warns_then_processes_url _ (by decide) (by decide)).1,
   (c10_url_and_year_warns_then_processes_url _ (by decide) (by decide)).2.1⟩

/-! ## C8 — malformed month range -/

/-- C8: every month-range string that is neither a single integer in
1..12 nor two dash-separated integers within 1..12 forming a valid range
makes `extract_bounds` raise a `ValueError`; and whenever `main` aborts
with that uncaught error, its trace of externally visible actions is
empty — in particular no document download and no recognition work has
begun, and the error indeed came from `extract_bounds` on the month
argument; concretely, any argument set that reaches the month parse with
a malformed month makes `main` produce no action and re-raise the
`extract_bounds` error. -/
theorem c8_malformed_month_raises_before_work :
    (∀ s : String, isValidSingleMonth s = false → isValidMonthRange s = false →
      ∃ msg, extractBounds s = .error msg) ∧
    (∀ (a : Args) (e : String), (pyMain a).2 = some e →
      (pyMain a).1 = [] ∧ ∃ m, a.month = some m ∧ extractBounds m = .error e) ∧
    (∀ (a : Args) (e : String), truthyStr a.url = false → truthyInt a.year = true →
      pyStrLenInt (a.year.getD 0) = 4 → ¬a.year.getD 0 < 2020 →
      truthyStr a.month = true → extractBounds (a.month.getD "") = .error e →
      pyMain a = ([], some e)) := by
  refine ⟨?_, ?_, ?_⟩
  · intro s h1 h2
    unfold extractBounds
    unfold isValidSingleMonth at h1
    unfold isValidMonthRange at h2
    cases hp : pyInt s with
    | some n =>
      rw [hp] at h1
      by_cases hr : 1 ≤ n ∧ n ≤ 12
      · simp [hr] at h1
      · simp only [hr, if_false]
        cases hm : (pySplit "-" s).map pyInt with
        | nil => exact ⟨_, rfl⟩
        | cons x rest =>
          rw [hm] at h2
          rcases x with _ | lo
          · exact ⟨_, rfl⟩
          · rcases rest with _ | ⟨y, rest'⟩
            · exact ⟨_, rfl⟩
            · rcases y with _ | hi
              · exact ⟨_, rfl⟩
              · rcases rest' with _ | ⟨z, rest''⟩
                · by_cases hok : 1 ≤ lo ∧ lo ≤ 12 ∧ 1 ≤ hi ∧ hi ≤ 12 ∧ lo < hi
                  · simp [hok] at h2
                  · simp only [hok, if_false]; exact ⟨_, rfl⟩
                · exact ⟨_, rfl⟩
    | none =>
      rw [hp] at h1
      simp only
      cases hm : (pySplit "-" s).map pyInt with
      | nil => exact ⟨_, rfl⟩
      | cons x rest =>
        rw [hm] at h2
        rcases x with _ | lo
        · exact ⟨_, rfl⟩
        · rcases rest with _ | ⟨y, rest'⟩
          · exact ⟨_, rfl⟩
          · rcases y with _ | hi
            · exact ⟨_, rfl⟩
            · rcases rest' with _ | ⟨z, rest''⟩
              · by_cases hok : 1 ≤ lo ∧ lo ≤ 12 ∧ 1 ≤ hi ∧ hi ≤ 12 ∧ lo < hi
                · simp [hok] at h2
                · simp only [hok, if_false]; exact ⟨_, rfl⟩
              · exact ⟨_, rfl⟩
  · intro a e habort
    unfold pyMain at habort ⊢
    by_cases hu : truthyStr a.url = true
    · simp [hu] at habort
    · simp only [hu, Bool.false_and, if_neg, Bool.not_eq_true] at habort ⊢
      by_cases hy : truthyInt a.year = true
      · simp only [hy, Bool.not_true, Bool.false_eq_true, if_false, if_neg] at habort ⊢
        by_cases hlen : pyStrLenInt (a.year.getD 0) ≠ 4
        · simp [hlen] at habort
        · simp only [hlen, if_false] at habort ⊢
          by_cases hlt : a.year.getD 0 < 2020
          · simp [hlt] at habort
          · simp only [hlt, if_false] at habort ⊢
            by_cases hm : truthyStr a.month = true
            · simp only [hm, if_true] at habort ⊢
              cases hb : extractBounds (a.month.getD "") with
              | error msg =>
                rw [hb] at habort
                simp only [Option.some.injEq] at habort
                subst habort
                refine ⟨rfl, (a.month.getD ""), ?_, hb⟩
                cases hmm : a.month with
                | none => rw [hmm] at hm; simp [truthyStr] at hm
                | some m => rfl
              | ok r =>
                rcases r with ⟨lo, hi⟩
                rw [hb] at habort
                simp at habort
            · simp [hm] at habort
      · simp [hu, hy] at habort
  · intro a e hu hy hlen hlt hm hb
    unfold pyMain
    rw [if_neg (show ¬(truthyStr a.url && truthyInt a.year) = true by rw [hu]; simp),
      if_neg (show ¬truthyStr a.url = true by rw [hu]; simp),
      if_neg (show ¬(!truthyInt a.year) = true by rw [hy]; simp),
      if_neg (show ¬pyStrLenInt (a.year.getD 0) ≠ 4 by rw [hlen]; simp),
      if_neg hlt, if_pos hm, hb]

/-- Witness for C8: the string "abc" is not a valid single month nor a
valid dash range, `extract_bounds` raises on it, and a `main` invocation
with `--year 2023 --month abc` aborts with an empty action trace. -/
theorem c8_malformed_month_witness :
    (isValidSingleMonth "abc" = false) ∧
    (∃ msg, extractBounds "abc" = .error msg) ∧
    (pyMain ⟨some 2023, some "abc", none, none, false, false, "right", "|"⟩ =
      ([], some "Invalid input format. Please enter two numbers separated by a dash in the range of 1 to 12, with the first being smaller than the latter. Or a single number")) := by
  have hr : isValidMonthRange "abc" = false := by
    simp [isValidMonthRange, pySplit, pySplitAux, List.isPrefixOf, pyInt, stripWs,
      isPySpace, pyIntBody, intDigitsRest]
  have hb : extractBounds "abc" = .error "Invalid input format. Please enter two numbers separated by a dash in the range of 1 to 12, with the first being smaller than the latter. Or a single number" := by
    simp [extractBounds, pyInt, stripWs, isPySpace, pyIntBody, intDigitsRest, pySplit,
      pySplitAux, List.isPrefixOf]
  refine ⟨by rfl, c8_malformed_month_raises_before_work.1 "abc" (by rfl) hr, ?_⟩
  exact c8_malformed_month_raises_before_work.2.2
    ⟨some 2023, some "abc", none, none, false, false, "right", "|"⟩ _
    rfl rfl (by decide) (by decide) rfl hb

/-! ## C6 — empty final record set still writes the sink -/

/-- C6 (code bug): a run whose final record set is empty does NOT take the
no-op branch.  The guard at drughunter_extractor.py line 140 is
`if extraction_results:` — truthiness of the *dict*, which always holds
its column keys — so with zero records the run still hands the (empty)
table to the Tabular Sink, and the `"Nothing was extracted."` report is
unreachable.  The hypotheses are the recognizer/validator length
contracts at the empty input. -/
theorem c6_empty_final_set_still_exports
    (recMol recDec : List Image → RecResults)
    (validate : List String → List (Option Bool)) (dc : Bool)
    (hm : (recMol []).smiles = [] ∧ (recMol []).inchi = [] ∧ (recMol []).inchikey = [])
    (hv : validate [] = []) :
    (extractMoleculesFromPdfs [] recMol recDec validate dc).action =
      SinkAction.exportCsv ∧
    (extractMoleculesFromPdfs [] recMol recDec validate dc).finalTable ≠ [] ∧
    ∀ p ∈ (extractMoleculesFromPdfs [] recMol recDec validate dc).finalTable,
      colLength p.2 = 0 := by
  obtain ⟨h1, h2, h3⟩ := hm
  refine ⟨?_, ?_, ?_⟩ <;>
    simp [extractMoleculesFromPdfs, h1, h2, h3, hv, falseIndices, falseIndicesFrom,
      dictUpdate, setKey, removeDuplicates, getStrCol, getValCol, getCol,
      keptIndices, keepRow, filterRows, colLength]

/-- Witness for C6: with collaborators that respect their contracts and an
empty segmentation result, the run exports an empty artifact instead of
reporting the no-op. -/
theorem c6_empty_final_set_still_exports_witness :
    (extractMoleculesFromPdfs [] (fun l => ⟨l.map (fun _ => ""), l.map (fun _ => ""),
        l.map (fun _ => "")⟩) (fun l => ⟨l.map (fun _ => ""), l.map (fun _ => ""),
        l.map (fun _ => "")⟩) (fun keys => keys.map (fun _ => none)) true).action =
      SinkAction.exportCsv :=
  (c6_empty_final_set_still_exports _ _ _ true ⟨rfl, rfl, rfl⟩ rfl).1

/-! ## C5 — null results and the reported rates -/

/-- The rate the claim describes: null results excluded from the
denominator, which is then the number of non-null (checked) results. -/
def specRateNullExcluded (v : List (Option Bool)) : ℚ :=
  (countPyTrue v : ℚ) / ((countPyTrue v + countPyFalse v : ℕ) : ℚ) * 100

/-- Two-segment run for concrete rate computations: image 0 recognizes to
the key "AAA", image 1 to the empty key. -/
def segRes5 : List SegResult := [⟨"f.pdf", 0, 0, 0⟩, ⟨"f.pdf", 0, 1, 1⟩]

/-- Recognizer stub: image 0 yields key "AAA", every other image the
empty key (in all three columns). -/
def recStub5 : List Image → RecResults :=
  fun l => ⟨l.map (fun i => if i = 0 then "AAA" else ""),
            l.map (fun i => if i = 0 then "AAA" else ""),
            l.map (fun i => if i = 0 then "AAA" else "")⟩

/-- Validator stub honouring the contract: "AAA" validates, the empty key
gives null. -/
def valStub5 : List String → List (Option Bool) :=
  fun keys => keys.map (fun k => if k = "AAA" then some true else none)

/-- C5 counterexample: a run whose primary validation list is
`[True, None]` prints a 50% success rate — `len(validation)` in the
denominator counts the null — whereas the claim's null-excluded
denominator would give 100%.  The claim is therefore false of the code. -/
theorem c5_null_in_denominator_counterexample :
    (extractMoleculesFromPdfs segRes5 recStub5 recStub5 valStub5 true).primaryVal =
      [some true, none] ∧
    (extractMoleculesFromPdfs segRes5 recStub5 recStub5 valStub5 true).primaryRateShown =
      some 50 ∧
    specRateNullExcluded [some true, none] = 100 ∧
    (extractMoleculesFromPdfs segRes5 recStub5 recStub5 valStub5 true).primaryRateShown ≠
      some (specRateNullExcluded [some true, none]) := by
  have hr : reportedRate [some true, none] = 50 := by
    simp [reportedRate, countPyTrue]
    norm_num
  have hs : specRateNullExcluded [some true, none] = 100 := by
    simp [specRateNullExcluded, countPyTrue, countPyFalse]
  have hshown : (extractMoleculesFromPdfs segRes5 recStub5 recStub5
      valStub5 true).primaryRateShown = some (reportedRate [some true, none]) := rfl
  refine ⟨by decide, by rw [hshown, hr], hs, ?_⟩
  rw [hshown, hr, hs]
  intro hcon
  exact absurd (Option.some.inj hcon) (by norm_num)

/-- C5 amended: a null validator result is never counted as true or as
false in the numerators of the reported rates or in the printed
True/False counts (dropping the nulls changes neither count), but the
denominator of each reported percentage is the full validation-list
length, nulls included. -/
theorem c5_nulls_uncounted_in_numerators_but_in_denominator (v : List (Option Bool)) :
    countPyTrue v = countPyTrue (v.filter (fun x => !(x == none))) ∧
    countPyFalse v = countPyFalse (v.filter (fun x => !(x == none))) ∧
    reportedRate v = (countPyTrue v : ℚ) / (v.length : ℚ) * 100 := by
  refine ⟨?_, ?_, rfl⟩
  · induction v with
    | nil => rfl
    | cons x rest ih =>
      cases x with
      | none => simpa [countPyTrue] using ih
      | some b =>
        cases b <;> simp [countPyTrue] at ih ⊢ <;> omega
  · induction v with
    | nil => rfl
    | cons x rest ih =>
      cases x with
      | none => simpa [countPyFalse] using ih
      | some b =>
        cases b <;> simp [countPyFalse] at ih ⊢ <;> omega

/-! ## List lemmas for the comprehension embeddings -/

/-- `List.contains` on `Nat` agrees with membership. -/
theorem contains_eq_decide_mem (idxs : List Nat) (i : Nat) :
    idxs.contains i = decide (i ∈ idxs) := by
  by_cases h : i ∈ idxs <;> simp [h]

/-- The segment-selection comprehension picks exactly the elements whose
running index lies in `idxs`, in input order. -/
theorem selectByIndexFrom_eq_filterMap (idxs : List Nat) (l : List Image) (k : Nat) :
    selectByIndexFrom idxs k l =
      (List.range l.length).filterMap
        (fun i => if idxs.contains (k + i) then l.get? i else none) := by
  induction l generalizing k with
  | nil => simp [selectByIndexFrom]
  | cons s rest ih =>
    have htail :
        (List.range rest.length).filterMap
            ((fun i => if idxs.contains (k + i) then (s :: rest).get? i else none)
              ∘ Nat.succ) =
          (List.range rest.length).filterMap
            (fun i => if idxs.contains ((k + 1) + i) then rest.get? i else none) := by
      apply List.filterMap_congr
      intro i _
      have harith : k + (i + 1) = (k + 1) + i := by omega
      simp [Function.comp, Nat.succ_eq_add_one, harith]
    by_cases hk : idxs.contains k = true
    · simp only [selectByIndexFrom, hk, if_true, List.length_cons,
        List.range_succ_eq_map, List.filterMap_cons, List.filterMap_map,
        Nat.add_zero, List.get?_cons_zero, htail, ih]
    · simp only [selectByIndexFrom, hk, if_false, Bool.not_eq_true, List.length_cons,
        List.range_succ_eq_map, List.filterMap_cons, List.filterMap_map,
        Nat.add_zero, List.get?_cons_zero, htail, ih]
      simp

/-- The invalidated-index comprehension lists exactly the positions whose
validation entry is `False`, shifted by the running offset. -/
theorem falseIndicesFrom_eq (v : List (Option Bool)) (k : Nat) :
    falseIndicesFrom k v =
      ((List.range v.length).filter
        (fun i => v.getD i none == some false)).map (k + ·) := by
  induction v generalizing k with
  | nil => simp [falseIndicesFrom]
  | cons x rest ih =>
    have htail :
        (List.range rest.length).filter
            ((fun i => (x :: rest).getD i none == some false) ∘ Nat.succ) =
          (List.range rest.length).filter
            (fun i => rest.getD i none == some false) := by
      apply List.filter_congr
      intro i _
      simp [Function.comp, Nat.succ_eq_add_one, List.getD_cons_succ]
    by_cases hx : (x == some false) = true
    · simp only [falseIndicesFrom, hx, if_true, List.length_cons,
        List.range_succ_eq_map, List.filter_cons, List.getD_cons_zero,
        List.filter_map, htail, List.map_cons, ih]
      rw [List.map_map]
      simp only [Nat.add_zero]
      congr 1
      apply List.map_congr_left
      intro i _
      simp only [Function.comp, Nat.succ_eq_add_one]
      omega
    · simp only [falseIndicesFrom, hx, List.length_cons,
        List.range_succ_eq_map, List.filter_cons, List.getD_cons_zero,
        List.filter_map, htail, ih]
      simp only [Bool.false_eq_true, if_false]
      rw [List.map_map]
      apply List.map_congr_left
      intro i _
      simp only [Function.comp, Nat.succ_eq_add_one]
      omega

/-- `index_list` is the in-order list of positions validated `False`. -/
theorem falseIndices_eq (v : List (Option Bool)) :
    falseIndices v =
      (List.range v.length).filter (fun i => v.getD i none == some false) := by
  unfold falseIndices
  rw [falseIndicesFrom_eq]
  simp

/-- Restricting a `filterMap` to the elements passing a filter. -/
theorem filterMap_filter_eq (p : Nat → Bool) (f : Nat → Option Image) (l : List Nat) :
    (l.filter p).filterMap f =
      l.filterMap (fun a => if p a then f a else none) := by
  induction l with
  | nil => rfl
  | cons a rest ih =>
    by_cases hp : p a = true
    · simp only [List.filter_cons, hp, if_true, List.filterMap_cons, ih]
    · simp only [List.filter_cons, hp, Bool.false_eq_true, if_false,
        List.filterMap_cons, ih]

/-- A `filterMap` whose function never returns `none` keeps the length. -/
theorem length_filterMap_of_isSome {α β : Type} (f : α → Option β) (l : List α)
    (h : ∀ a ∈ l, (f a).isSome) : (l.filterMap f).length = l.length := by
  induction l with
  | nil => rfl
  | cons a rest ih =>
    have ha := h a (by simp)
    cases hfa : f a with
    | none => rw [hfa] at ha; simp at ha
    | some b =>
      simp only [List.filterMap_cons, hfa, List.length_cons]
      rw [ih (fun x hx => h x (by simp [hx]))]

/-! ## Unfolding equations for the pipeline record -/

/-- The run's segment list is the fourth component of each segmentation
result, in order. -/
theorem run_segments_eq (sr : List SegResult) (rm rd : List Image → RecResults)
    (va : List String → List (Option Bool)) (dc : Bool) :
    (extractMoleculesFromPdfs sr rm rd va dc).segments = sr.map (·.segment) := rfl

/-- The run's primary results come from the primary recognizer on all
segments. -/
theorem run_primary_eq (sr : List SegResult) (rm rd : List Image → RecResults)
    (va : List String → List (Option Bool)) (dc : Bool) :
    (extractMoleculesFromPdfs sr rm rd va dc).primary = rm (sr.map (·.segment)) := rfl

/-- The run's primary validation list is the validator on the primary
identity keys. -/
theorem run_primaryVal_eq (sr : List SegResult) (rm rd : List Image → RecResults)
    (va : List String → List (Option Bool)) (dc : Bool) :
    (extractMoleculesFromPdfs sr rm rd va dc).primaryVal =
      va ((rm (sr.map (·.segment))).inchikey) := rfl

/-- The run's candidate list is `index_list`. -/
theorem run_candidates_eq (sr : List SegResult) (rm rd : List Image → RecResults)
    (va : List String → List (Option Bool)) (dc : Bool) :
    (extractMoleculesFromPdfs sr rm rd va dc).candidates =
      falseIndices (va ((rm (sr.map (·.segment))).inchikey)) := rfl

/-- With no invalidated segment, the complement recognizer is not invoked
and the merge state is the untouched primary state. -/
theorem run_decimer_empty (sr : List SegResult) (rm rd : List Image → RecResults)
    (va : List String → List (Option Bool))
    (h : falseIndices (va ((rm (sr.map (·.segment))).inchikey)) = []) :
    (extractMoleculesFromPdfs sr rm rd va true).decimerCalled = false ∧
    (extractMoleculesFromPdfs sr rm rd va true).decimerSegments = [] ∧
    (extractMoleculesFromPdfs sr rm rd va true).merged =
      ⟨rm (sr.map (·.segment)), va ((rm (sr.map (·.segment))).inchikey)⟩ := by
  unfold extractMoleculesFromPdfs
  simp only [h, List.isEmpty_nil, if_true]
  refine ⟨?_, ?_, ?_⟩ <;> trivial

/-- With at least one invalidated segment, the complement recognizer runs
on the selected segments and the merge loop produces the final state. -/
theorem run_decimer_nonempty (sr : List SegResult) (rm rd : List Image → RecResults)
    (va : List String → List (Option Bool))
    (h : falseIndices (va ((rm (sr.map (·.segment))).inchikey)) ≠ []) :
    (extractMoleculesFromPdfs sr rm rd va true).decimerCalled = true ∧
    (extractMoleculesFromPdfs sr rm rd va true).decimerSegments =
      selectByIndex (falseIndices (va ((rm (sr.map (·.segment))).inchikey)))
        (sr.map (·.segment)) ∧
    (extractMoleculesFromPdfs sr rm rd va true).merged =
      mergeLoop
        (rd (selectByIndex (falseIndices (va ((rm (sr.map (·.segment))).inchikey)))
          (sr.map (·.segment))))
        (va ((rd (selectByIndex (falseIndices (va ((rm (sr.map (·.segment))).inchikey)))
          (sr.map (·.segment)))).inchikey))
        (falseIndices (va ((rm (sr.map (·.segment))).inchikey)))
        (rm (sr.map (·.segment)))
        (va ((rm (sr.map (·.segment))).inchikey)) := by
  have hie : (falseIndices (va ((rm (sr.map (·.segment))).inchikey))).isEmpty = false :=
    List.isEmpty_eq_false.mpr h
  unfold extractMoleculesFromPdfs
  simp only [hie, Bool.false_eq_true, if_false, if_true]
  refine ⟨?_, ?_, ?_⟩ <;> trivial

/-- Selecting by the invalidated indices picks exactly the entries of
`falseIndices v`, in order, read off the segment list. -/
theorem selectByIndex_falseIndices (segs : List Image) (v : List (Option Bool))
    (hlen : v.length = segs.length) :
    selectByIndex (falseIndices v) segs =
      (falseIndices v).filterMap (segs.get? ·) := by
  rw [falseIndices_eq, hlen]
  unfold selectByIndex
  rw [selectByIndexFrom_eq_filterMap, filterMap_filter_eq]
  apply List.filterMap_congr
  intro i hi
  have hilt : i < segs.length := List.mem_range.mp hi
  have hcond : (List.filter (fun j => v.getD j none == some false)
      (List.range segs.length)).contains (0 + i) =
      (v.getD i none == some false) := by
    rw [Nat.zero_add, contains_eq_decide_mem]
    by_cases hp : (v.getD i none == some false) = true
    · rw [hp]
      apply decide_eq_true
      rw [List.mem_filter, List.mem_range]
      exact ⟨hilt, hp⟩
    · rw [Bool.not_eq_true] at hp
      rw [hp]
      apply decide_eq_false
      intro hmem
      have hpi := (List.mem_filter.mp hmem).2
      rw [hp] at hpi
      exact Bool.false_ne_true hpi
  rw [hcond]

/-- The complement input has one segment per invalidated index. -/
theorem selectByIndex_falseIndices_length (segs : List Image)
    (v : List (Option Bool)) (hlen : v.length = segs.length) :
    (selectByIndex (falseIndices v) segs).length = (falseIndices v).length := by
  rw [selectByIndex_falseIndices segs v hlen]
  apply length_filterMap_of_isSome
  intro i hi
  rw [falseIndices_eq] at hi
  have hilt : i < segs.length := by
    have hr := (List.mem_filter.mp hi).1
    rw [List.mem_range] at hr
    omega
  rw [List.get?_eq_get hilt]
  rfl

/-- `index_list` holds no duplicate positions. -/
theorem falseIndices_nodup (v : List (Option Bool)) : (falseIndices v).Nodup := by
  rw [falseIndices_eq]
  exact List.Nodup.filter _ (List.nodup_range v.length)

/-- Membership in `index_list` means a `False` validation entry. -/
theorem mem_falseIndices (v : List (Option Bool)) (i : Nat) :
    i ∈ falseIndices v ↔ i < v.length ∧ v.getD i none = some false := by
  rw [falseIndices_eq]
  simp [List.mem_filter, List.mem_range]

/-! ## C4 — scope of the complement pass -/

/-- C4: with the complement enabled, `index_list` holds exactly the
positions whose primary validation is `False` (null positions excluded),
the complement recognizer receives exactly the segments at those
positions in their input order (one segment per candidate), and the
complement recognizer is not invoked at all when no position validated
`False`.  The hypotheses are the length contracts of the primary
recognizer and of the validator. -/
theorem c4_complement_scope (sr : List SegResult)
    (rm rd : List Image → RecResults) (va : List String → List (Option Bool))
    (hm : (rm (sr.map (·.segment))).inchikey.length = sr.length)
    (hv : ∀ keys, (va keys).length = keys.length) :
    (extractMoleculesFromPdfs sr rm rd va true).candidates =
      (List.range (extractMoleculesFromPdfs sr rm rd va true).primaryVal.length).filter
        (fun i => (extractMoleculesFromPdfs sr rm rd va true).primaryVal.getD i none
          == some false) ∧
    (extractMoleculesFromPdfs sr rm rd va true).decimerSegments =
      (extractMoleculesFromPdfs sr rm rd va true).candidates.filterMap
        ((extractMoleculesFromPdfs sr rm rd va true).segments.get? ·) ∧
    (extractMoleculesFromPdfs sr rm rd va true).decimerSegments.length =
      (extractMoleculesFromPdfs sr rm rd va true).candidates.length ∧
    ((extractMoleculesFromPdfs sr rm rd va true).candidates = [] →
      (extractMoleculesFromPdfs sr rm rd va true).decimerCalled = false) ∧
    ((extractMoleculesFromPdfs sr rm rd va true).candidates ≠ [] →
      (extractMoleculesFromPdfs sr rm rd va true).decimerCalled = true) := by
  have hlen : (va ((rm (sr.map (·.segment))).inchikey)).length =
      (sr.map (·.segment)).length := by
    rw [hv, hm, List.length_map]
  have hsel := selectByIndex_falseIndices (sr.map (·.segment))
    (va ((rm (sr.map (·.segment))).inchikey)) hlen
  refine ⟨?_, ?_, ?_, ?_, ?_⟩
  · rw [run_candidates_eq, run_primaryVal_eq, falseIndices_eq]
  · rw [run_candidates_eq, run_segments_eq]
    by_cases hidx : falseIndices (va ((rm (sr.map (·.segment))).inchikey)) = []
    · rw [(run_decimer_empty sr rm rd va hidx).2.1, hidx]
      simp
    · rw [(run_decimer_nonempty sr rm rd va hidx).2.1, hsel]
  · rw [run_candidates_eq]
    by_cases hidx : falseIndices (va ((rm (sr.map (·.segment))).inchikey)) = []
    · rw [(run_decimer_empty sr rm rd va hidx).2.1, hidx]
    · rw [(run_decimer_nonempty sr rm rd va hidx).2.1]
      exact selectByIndex_falseIndices_length (sr.map (·.segment))
        (va ((rm (sr.map (·.segment))).inchikey)) hlen
  · intro hc
    rw [run_candidates_eq] at hc
    exact (run_decimer_empty sr rm rd va hc).1
  · intro hc
    rw [run_candidates_eq] at hc
    exact (run_decimer_nonempty sr rm rd va hc).1

/-- Witness for C4: three segments, the primary validating them
`[True, False, False]`, hand decimer exactly segments 1 and 2, in order. -/
theorem c4_complement_scope_witness :
    ((extractMoleculesFromPdfs
        [⟨"f.pdf", 0, 0, 0⟩, ⟨"f.pdf", 0, 1, 1⟩, ⟨"f.pdf", 0, 2, 2⟩]
        (fun l => ⟨l.map (fun _ => "K"), l.map (fun _ => "K"),
          l.map (fun i => if i = 0 then "AAA" else "BBB")⟩)
        (fun l => ⟨l.map (fun _ => ""), l.map (fun _ => ""), l.map (fun _ => "")⟩)
        (fun keys => keys.map (fun k => if k = "AAA" then some true
          else if k = "BBB" then some false else none))
        true).candidates = [1, 2]) ∧
    ((extractMoleculesFromPdfs
        [⟨"f.pdf", 0, 0, 0⟩, ⟨"f.pdf", 0, 1, 1⟩, ⟨"f.pdf", 0, 2, 2⟩]
        (fun l => ⟨l.map (fun _ => "K"), l.map (fun _ => "K"),
          l.map (fun i => if i = 0 then "AAA" else "BBB")⟩)
        (fun l => ⟨l.map (fun _ => ""), l.map (fun _ => ""), l.map (fun _ => "")⟩)
        (fun keys => keys.map (fun k => if k = "AAA" then some true
          else if k = "BBB" then some false else none))
        true).decimerSegments = [1, 2]) := by
  have h := c4_complement_scope
    [⟨"f.pdf", 0, 0, 0⟩, ⟨"f.pdf", 0, 1, 1⟩, ⟨"f.pdf", 0, 2, 2⟩]
    (fun l => ⟨l.map (fun _ => "K"), l.map (fun _ => "K"),
      l.map (fun i => if i = 0 then "AAA" else "BBB")⟩)
    (fun l => ⟨l.map (fun _ => ""), l.map (fun _ => ""), l.map (fun _ => "")⟩)
    (fun keys => keys.map (fun k => if k = "AAA" then some true
      else if k = "BBB" then some false else none))
    (by decide) (fun keys => by simp)
  refine ⟨by decide, ?_⟩
  rw [h.2.1]
  decide

/-! ## Merge-loop characterization -/

/-- The four mutable fields of one record position. -/
def stateAt (st : MergeState) (i : Nat) :
    Option String × Option String × Option String × Option (Option Bool) :=
  (st.engine.smiles[i]?, st.engine.inchi[i]?, st.engine.inchikey[i]?,
    st.validation[i]?)

/-- The merge condition of line 127 collapses to `validation_result is
True`: its second disjunct compares a whole list with the empty string
(always `True` for `!=`, always `False` for `==`). -/
theorem mergeStep_cond (dec : RecResults) (st : MergeState) (vr : Option Bool) :
    (vr == some true || (pyNeListStr dec.inchikey "" && pyEqListStr st.engine.inchikey "")) =
      (vr == some true) := by
  simp [pyNeListStr, pyEqListStr]

/-- `mergeStep` in normal form. -/
theorem mergeStep_eq (dec : RecResults) (idxList : List Nat) (st : MergeState)
    (j : Nat) (vr : Option Bool) :
    mergeStep dec idxList st j vr =
      if vr == some true then
        match idxList.get? j with
        | some i =>
          ⟨⟨st.engine.smiles.set i (dec.smiles.getD j ""),
            st.engine.inchi.set i (dec.inchi.getD j ""),
            st.engine.inchikey.set i (dec.inchikey.getD j "")⟩,
            st.validation.set i vr⟩
        | none => st
      else st := by
  unfold mergeStep
  rw [mergeStep_cond]

/-- `mergeStep` preserves the four column lengths. -/
theorem mergeStep_lengths (dec : RecResults) (idxList : List Nat) (st : MergeState)
    (j : Nat) (vr : Option Bool) :
    (mergeStep dec idxList st j vr).engine.smiles.length = st.engine.smiles.length ∧
    (mergeStep dec idxList st j vr).engine.inchi.length = st.engine.inchi.length ∧
    (mergeStep dec idxList st j vr).engine.inchikey.length = st.engine.inchikey.length ∧
    (mergeStep dec idxList st j vr).validation.length = st.validation.length := by
  rw [mergeStep_eq]
  by_cases hc : (vr == some true) = true
  · rw [if_pos hc]
    cases idxList.get? j with
    | none => exact ⟨rfl, rfl, rfl, rfl⟩
    | some i => simp [List.length_set]
  · rw [if_neg hc]
    exact ⟨rfl, rfl, rfl, rfl⟩

/-- The merge loop preserves the four column lengths. -/
theorem mergeLoopFrom_lengths (dec : RecResults) (idxList : List Nat) :
    ∀ (vlist : List (Option Bool)) (j : Nat) (st : MergeState),
      (mergeLoopFrom dec idxList j vlist st).engine.smiles.length =
        st.engine.smiles.length ∧
      (mergeLoopFrom dec idxList j vlist st).engine.inchi.length =
        st.engine.inchi.length ∧
      (mergeLoopFrom dec idxList j vlist st).engine.inchikey.length =
        st.engine.inchikey.length ∧
      (mergeLoopFrom dec idxList j vlist st).validation.length =
        st.validation.length := by
  intro vlist
  induction vlist with
  | nil => intro j st; exact ⟨rfl, rfl, rfl, rfl⟩
  | cons vr rest ih =>
    intro j st
    have h1 := ih (j + 1) (mergeStep dec idxList st j vr)
    have h2 := mergeStep_lengths dec idxList st j vr
    exact ⟨h1.1.trans h2.1, h1.2.1.trans h2.2.1, h1.2.2.1.trans h2.2.2.1,
      h1.2.2.2.trans h2.2.2.2⟩

/-- A merge step aimed at a different position leaves position `i`
untouched. -/
theorem mergeStep_frame (dec : RecResults) (idxList : List Nat) (st : MergeState)
    (j : Nat) (vr : Option Bool) (i : Nat) (h : idxList.get? j ≠ some i) :
    stateAt (mergeStep dec idxList st j vr) i = stateAt st i := by
  rw [mergeStep_eq]
  by_cases hc : (vr == some true) = true
  · rw [if_pos hc]
    cases hj : idxList.get? j with
    | none => rfl
    | some i' =>
      have hne : i' ≠ i := by
        intro hcon
        exact h (hcon ▸ hj)
      simp [stateAt, List.getElem?_set_ne hne]
  · rw [if_neg hc]

/-- Iterations that never target position `i` leave it untouched. -/
theorem mergeLoopFrom_frame (dec : RecResults) (idxList : List Nat) (i : Nat) :
    ∀ (vlist : List (Option Bool)) (j : Nat) (st : MergeState),
      (∀ d, d < vlist.length → idxList.get? (j + d) ≠ some i) →
      stateAt (mergeLoopFrom dec idxList j vlist st) i = stateAt st i := by
  intro vlist
  induction vlist with
  | nil => intro j st _; rfl
  | cons vr rest ih =>
    intro j st h
    have hstep := mergeStep_frame dec idxList st j vr i
      (by simpa using h 0 (by simp))
    have hrest := ih (j + 1) (mergeStep dec idxList st j vr)
      (fun d hd => by
        have := h (d + 1) (by simpa using Nat.succ_lt_succ hd)
        rwa [show j + (d + 1) = j + 1 + d by omega] at this)
    exact hrest.trans hstep

/-- The value written at position `idxList[j + d]` by the merge loop: the
complement's fields when iteration `d`'s validation entry is `True`, the
untouched input state otherwise.  `idxList` holds no duplicates (it is a
list of distinct positions) and has one entry per iteration. -/
theorem mergeLoopFrom_write (dec : RecResults) (idxList : List Nat)
    (hnd : idxList.Nodup) :
    ∀ (vlist : List (Option Bool)) (j : Nat) (st : MergeState) (d i : Nat),
      d < vlist.length →
      idxList.get? (j + d) = some i →
      vlist.length + j ≤ idxList.length →
      i < st.engine.smiles.length → i < st.engine.inchi.length →
      i < st.engine.inchikey.length → i < st.validation.length →
      stateAt (mergeLoopFrom dec idxList j vlist st) i =
        (if vlist.getD d none == some true then
          (some (dec.smiles.getD (j + d) ""), some (dec.inchi.getD (j + d) ""),
            some (dec.inchikey.getD (j + d) ""), some (vlist.getD d none))
        else stateAt st i) := by
  intro vlist
  induction vlist with
  | nil =>
    intro j st d i hd
    exact absurd hd (by simp)
  | cons vr rest ih =>
    intro j st d i hd hget hbound h1 h2 h3 h4
    have hbound' : rest.length + (j + 1) ≤ idxList.length := by
      simp only [List.length_cons] at hbound
      omega
    cases d with
    | zero =>
      have hgetj : idxList.get? j = some i := by simpa using hget
      have hj : j < idxList.length := (List.get?_eq_some.mp hgetj).1
      have hframe :
          ∀ d', d' < rest.length → idxList.get? (j + 1 + d') ≠ some i := by
        intro d' hd' hcon
        have hlt1 : j + 1 + d' < idxList.length := by omega
        have := List.get?_inj hlt1 hnd (hcon.trans hgetj.symm)
        omega
      by_cases hc : (vr == some true) = true
      · have hstep : stateAt (mergeStep dec idxList st j vr) i =
            (some (dec.smiles.getD j ""), some (dec.inchi.getD j ""),
              some (dec.inchikey.getD j ""), some vr) := by
          rw [mergeStep_eq, if_pos hc, hgetj]
          simp [stateAt, List.getElem?_set_self, h1, h2, h3, h4]
        have hrest := mergeLoopFrom_frame dec idxList i rest (j + 1)
          (mergeStep dec idxList st j vr) hframe
        simp only [mergeLoopFrom]
        rw [hrest, hstep]
        simp only [List.getD_cons_zero, Nat.add_zero, hc, if_true]
      · have hstep : mergeStep dec idxList st j vr = st := by
          rw [mergeStep_eq, if_neg hc]
        have hrest := mergeLoopFrom_frame dec idxList i rest (j + 1)
          (mergeStep dec idxList st j vr) hframe
        simp only [mergeLoopFrom]
        rw [hrest, hstep]
        simp only [List.getD_cons_zero, hc, Bool.false_eq_true, if_false]
    | succ d' =>
      have hjlt : j + (d' + 1) < idxList.length := (List.get?_eq_some.mp hget).1
      have hstepne : idxList.get? j ≠ some i := by
        intro hcon
        have := List.get?_inj (by omega : j < idxList.length) hnd (hcon.trans hget.symm)
        omega
      have hstfr := mergeStep_frame dec idxList st j vr i hstepne
      have hlen := mergeStep_lengths dec idxList st j vr
      have hget' : idxList.get? (j + 1 + d') = some i := by
        rwa [show j + 1 + d' = j + (d' + 1) by omega]
      have hih := ih (j + 1) (mergeStep dec idxList st j vr) d' i
        (by simp only [List.length_cons] at hd; omega) hget' hbound'
        (by rw [hlen.1]; exact h1)
        (by rw [hlen.2.1]; exact h2)
        (by rw [hlen.2.2.1]; exact h3)
        (by rw [hlen.2.2.2]; exact h4)
      simp only [mergeLoopFrom]
      rw [hih, hstfr]
      simp only [List.getD_cons_succ]
      rw [show j + 1 + d' = j + (d' + 1) by omega]

/-! ## C2 — alignment invariant -/

/-- With the complement disabled the merge state is the untouched primary
state. -/
theorem run_decimer_off (sr : List SegResult) (rm rd : List Image → RecResults)
    (va : List String → List (Option Bool)) :
    (extractMoleculesFromPdfs sr rm rd va false).merged =
      ⟨rm (sr.map (·.segment)), va ((rm (sr.map (·.segment))).inchikey)⟩ := rfl

/-- The pre-dedup table lists its seven columns in insertion order:
identity columns from the segmentation results, chemistry and validation
columns from the (merged) recognition state. -/
theorem run_preDedup_eq (sr : List SegResult) (rm rd : List Image → RecResults)
    (va : List String → List (Option Bool)) (dc : Bool) :
    (extractMoleculesFromPdfs sr rm rd va dc).preDedup =
      [("source", Col.strs (sr.map (·.source))),
        ("page number", Col.nats (sr.map (·.pageNumber))),
        ("segment number", Col.nats (sr.map (·.segmentNumber))),
        ("smiles", Col.strs (extractMoleculesFromPdfs sr rm rd va dc).merged.engine.smiles),
        ("inchi", Col.strs (extractMoleculesFromPdfs sr rm rd va dc).merged.engine.inchi),
        ("inchikey",
          Col.strs (extractMoleculesFromPdfs sr rm rd va dc).merged.engine.inchikey),
        ("validation",
          Col.vals (extractMoleculesFromPdfs sr rm rd va dc).merged.validation)] := rfl

/-- The merged chemistry and validation columns keep one entry per
segmentation result. -/
theorem run_merged_lengths (sr : List SegResult) (rm rd : List Image → RecResults)
    (va : List String → List (Option Bool)) (dc : Bool)
    (hm : (rm (sr.map (·.segment))).smiles.length = sr.length ∧
      (rm (sr.map (·.segment))).inchi.length = sr.length ∧
      (rm (sr.map (·.segment))).inchikey.length = sr.length)
    (hv : ∀ keys, (va keys).length = keys.length) :
    (extractMoleculesFromPdfs sr rm rd va dc).merged.engine.smiles.length = sr.length ∧
    (extractMoleculesFromPdfs sr rm rd va dc).merged.engine.inchi.length = sr.length ∧
    (extractMoleculesFromPdfs sr rm rd va dc).merged.engine.inchikey.length = sr.length ∧
    (extractMoleculesFromPdfs sr rm rd va dc).merged.validation.length = sr.length := by
  have hval : (va ((rm (sr.map (·.segment))).inchikey)).length = sr.length := by
    rw [hv]; exact hm.2.2
  cases dc with
  | false =>
    rw [run_decimer_off]
    exact ⟨hm.1, hm.2.1, hm.2.2, hval⟩
  | true =>
    by_cases hidx : falseIndices (va ((rm (sr.map (·.segment))).inchikey)) = []
    · rw [(run_decimer_empty sr rm rd va hidx).2.2]
      exact ⟨hm.1, hm.2.1, hm.2.2, hval⟩
    · rw [(run_decimer_nonempty sr rm rd va hidx).2.2]
      unfold mergeLoop
      have h := mergeLoopFrom_lengths
        (rd (selectByIndex (falseIndices (va ((rm (sr.map (·.segment))).inchikey)))
          (sr.map (·.segment))))
        (falseIndices (va ((rm (sr.map (·.segment))).inchikey)))
        (va ((rd (selectByIndex (falseIndices (va ((rm (sr.map (·.segment))).inchikey)))
          (sr.map (·.segment)))).inchikey))
        0
        ⟨rm (sr.map (·.segment)), va ((rm (sr.map (·.segment))).inchikey)⟩
      exact ⟨h.1.trans hm.1, h.2.1.trans hm.2.1, h.2.2.1.trans hm.2.2,
        h.2.2.2.trans hval⟩

/-- Positions outside `index_list` are never written by the merge loop. -/
theorem run_merged_frame (sr : List SegResult) (rm rd : List Image → RecResults)
    (va : List String → List (Option Bool)) (dc : Bool) (i : Nat)
    (hi : i ∉ (extractMoleculesFromPdfs sr rm rd va dc).candidates) :
    stateAt (extractMoleculesFromPdfs sr rm rd va dc).merged i =
      stateAt ⟨(extractMoleculesFromPdfs sr rm rd va dc).primary,
        (extractMoleculesFromPdfs sr rm rd va dc).primaryVal⟩ i := by
  rw [run_candidates_eq] at hi
  rw [run_primary_eq, run_primaryVal_eq]
  cases dc with
  | false => rw [run_decimer_off]
  | true =>
    by_cases hidx : falseIndices (va ((rm (sr.map (·.segment))).inchikey)) = []
    · rw [(run_decimer_empty sr rm rd va hidx).2.2]
    · rw [(run_decimer_nonempty sr rm rd va hidx).2.2]
      unfold mergeLoop
      apply mergeLoopFrom_frame
      intro d _ hcon
      exact hi (List.get?_mem (by simpa using hcon))

/-- C2: before deduplication there is exactly one record per input
segment (every column of the pre-dedup table has one entry per
segmentation result), record `i` carries the source, page number and
segment number of segment `i` in input order, and the reconciliation
stage mutates only the chemistry and validation fields, in place, at the
candidate positions — every other position still holds the primary
result, and no record is reordered or dropped before the Deduplicator. -/
theorem c2_alignment_invariant (sr : List SegResult)
    (rm rd : List Image → RecResults) (va : List String → List (Option Bool))
    (dc : Bool)
    (hm : (rm (sr.map (·.segment))).smiles.length = sr.length ∧
      (rm (sr.map (·.segment))).inchi.length = sr.length ∧
      (rm (sr.map (·.segment))).inchikey.length = sr.length)
    (hv : ∀ keys, (va keys).length = keys.length) :
    (∀ p ∈ (extractMoleculesFromPdfs sr rm rd va dc).preDedup,
      colLength p.2 = sr.length) ∧
    getCol (extractMoleculesFromPdfs sr rm rd va dc).preDedup "source" =
      some (Col.strs (sr.map (·.source))) ∧
    getCol (extractMoleculesFromPdfs sr rm rd va dc).preDedup "page number" =
      some (Col.nats (sr.map (·.pageNumber))) ∧
    getCol (extractMoleculesFromPdfs sr rm rd va dc).preDedup "segment number" =
      some (Col.nats (sr.map (·.segmentNumber))) ∧
    (∀ i, i ∉ (extractMoleculesFromPdfs sr rm rd va dc).candidates →
      stateAt (extractMoleculesFromPdfs sr rm rd va dc).merged i =
        stateAt ⟨(extractMoleculesFromPdfs sr rm rd va dc).primary,
          (extractMoleculesFromPdfs sr rm rd va dc).primaryVal⟩ i) := by
  have hml := run_merged_lengths sr rm rd va dc hm hv
  refine ⟨?_, ?_, ?_, ?_, fun i hi => run_merged_frame sr rm rd va dc i hi⟩
  · intro p hp
    rw [run_preDedup_eq] at hp
    simp only [List.mem_cons, List.not_mem_nil, or_false] at hp
    rcases hp with rfl | rfl | rfl | rfl | rfl | rfl | rfl <;>
      simp [colLength, List.length_map, hml.1, hml.2.1, hml.2.2.1, hml.2.2.2]
  · rw [run_preDedup_eq]; rfl
  · rw [run_preDedup_eq]; rfl
  · rw [run_preDedup_eq]; rfl

/-- Witness for C2: a concrete two-segment run with contract-respecting
collaborators satisfies the alignment invariant. -/
theorem c2_alignment_invariant_witness :
    getCol (extractMoleculesFromPdfs segRes5 recStub5 recStub5 valStub5
        true).preDedup "source" = some (Col.strs ["f.pdf", "f.pdf"]) ∧
    (∀ p ∈ (extractMoleculesFromPdfs segRes5 recStub5 recStub5 valStub5
        true).preDedup, colLength p.2 = segRes5.length) := by
  have h := c2_alignment_invariant segRes5 recStub5 recStub5 valStub5 true
    (by refine ⟨?_, ?_, ?_⟩ <;> simp [recStub5])
    (fun keys => by simp [valStub5])
  exact ⟨h.2.1, h.1⟩

/-! ## C1 — merge policy -/

/-- C1: in a complement-enabled run with collaborators meeting their
contracts (length preservation; null validation for empty identity
keys), position `i = candidate_indices[j]` is overwritten with the
complement's chemistry fields and validation flag iff
`complement_validated[j] is true` or the complement's `identity_key[j]`
is non-empty while the primary's `identity_key[i]` is empty; in every
other case the primary record at `i` is kept unchanged.  (At complemented
positions the primary key is never empty — its validation was `False`,
not null — so the second disjunct is vacuous there, which is exactly why
the source's degenerate list-to-string comparison at line 127 does not
change the run's behaviour.) -/
theorem c1_merge_policy (sr : List SegResult) (rm rd : List Image → RecResults)
    (va : List String → List (Option Bool))
    (hm : (rm (sr.map (·.segment))).smiles.length = sr.length ∧
      (rm (sr.map (·.segment))).inchi.length = sr.length ∧
      (rm (sr.map (·.segment))).inchikey.length = sr.length)
    (hdec : ∀ l, (rd l).smiles.length = l.length ∧ (rd l).inchi.length = l.length ∧
      (rd l).inchikey.length = l.length)
    (hv : ∀ keys, (va keys).length = keys.length)
    (hvnull : ∀ keys i, i < keys.length → keys.getD i "" = "" →
      (va keys).getD i none = none)
    (j i : Nat)
    (hget : (extractMoleculesFromPdfs sr rm rd va true).candidates.get? j = some i) :
    (((va ((rd (extractMoleculesFromPdfs sr rm rd va true).decimerSegments).inchikey)).getD
          j none = some true ∨
        ((rd (extractMoleculesFromPdfs sr rm rd va true).decimerSegments).inchikey.getD
            j "" ≠ "" ∧
          (extractMoleculesFromPdfs sr rm rd va true).primary.inchikey.getD i "" = "")) →
      stateAt (extractMoleculesFromPdfs sr rm rd va true).merged i =
        (some ((rd (extractMoleculesFromPdfs sr rm rd va true).decimerSegments).smiles.getD
            j ""),
          some ((rd (extractMoleculesFromPdfs sr rm rd va true).decimerSegments).inchi.getD
            j ""),
          some ((rd (extractMoleculesFromPdfs sr rm rd va
            true).decimerSegments).inchikey.getD j ""),
          some ((va ((rd (extractMoleculesFromPdfs sr rm rd va
            true).decimerSegments).inchikey)).getD j none))) ∧
    (¬((va ((rd (extractMoleculesFromPdfs sr rm rd va true).decimerSegments).inchikey)).getD
          j none = some true ∨
        ((rd (extractMoleculesFromPdfs sr rm rd va true).decimerSegments).inchikey.getD
            j "" ≠ "" ∧
          (extractMoleculesFromPdfs sr rm rd va true).primary.inchikey.getD i "" = "")) →
      stateAt (extractMoleculesFromPdfs sr rm rd va true).merged i =
        stateAt ⟨(extractMoleculesFromPdfs sr rm rd va true).primary,
          (extractMoleculesFromPdfs sr rm rd va true).primaryVal⟩ i) := by
  have hidxget : (falseIndices (va ((rm (sr.map (·.segment))).inchikey))).get? j =
      some i := by
    rw [run_candidates_eq] at hget
    exact hget
  have hne : falseIndices (va ((rm (sr.map (·.segment))).inchikey)) ≠ [] := by
    intro hnil
    rw [hnil] at hidxget
    simp at hidxget
  have hmollen : (va ((rm (sr.map (·.segment))).inchikey)).length = sr.length := by
    rw [hv]; exact hm.2.2
  have hlen2 : (va ((rm (sr.map (·.segment))).inchikey)).length =
      (sr.map (·.segment)).length := by
    rw [hmollen, List.length_map]
  have hmem : i ∈ falseIndices (va ((rm (sr.map (·.segment))).inchikey)) :=
    List.get?_mem hidxget
  obtain ⟨hilt, hifalse⟩ :=
    (mem_falseIndices (va ((rm (sr.map (·.segment))).inchikey)) i).mp hmem
  have hkeyne : (rm (sr.map (·.segment))).inchikey.getD i "" ≠ "" := by
    intro hempty
    have hnull := hvnull ((rm (sr.map (·.segment))).inchikey) i
      (by rw [← hv ((rm (sr.map (·.segment))).inchikey)]; exact hilt) hempty
    rw [hnull] at hifalse
    exact Option.noConfusion hifalse
  have hjlt : j < (falseIndices (va ((rm (sr.map (·.segment))).inchikey))).length :=
    (List.get?_eq_some.mp hidxget).1
  have hdlen : (va ((rd (selectByIndex
      (falseIndices (va ((rm (sr.map (·.segment))).inchikey)))
      (sr.map (·.segment)))).inchikey)).length =
      (falseIndices (va ((rm (sr.map (·.segment))).inchikey))).length := by
    rw [hv, (hdec _).2.2]
    exact selectByIndex_falseIndices_length (sr.map (·.segment))
      (va ((rm (sr.map (·.segment))).inchikey)) hlen2
  have hwrite := mergeLoopFrom_write
    (rd (selectByIndex (falseIndices (va ((rm (sr.map (·.segment))).inchikey)))
      (sr.map (·.segment))))
    (falseIndices (va ((rm (sr.map (·.segment))).inchikey)))
    (falseIndices_nodup (va ((rm (sr.map (·.segment))).inchikey)))
    (va ((rd (selectByIndex (falseIndices (va ((rm (sr.map (·.segment))).inchikey)))
      (sr.map (·.segment)))).inchikey))
    0
    ⟨rm (sr.map (·.segment)), va ((rm (sr.map (·.segment))).inchikey)⟩
    j i
    (by rw [hdlen]; exact hjlt)
    (by simpa using hidxget)
    (by rw [hdlen]; omega)
    (by rw [hm.1]; omega)
    (by rw [hm.2.1]; omega)
    (by rw [hm.2.2]; omega)
    (by rw [hmollen]; omega)
  simp only [Nat.zero_add] at hwrite
  have hdse := (run_decimer_nonempty sr rm rd va hne).2.1
  have hme := (run_decimer_nonempty sr rm rd va hne).2.2
  rw [run_primary_eq, run_primaryVal_eq, hdse, hme]
  unfold mergeLoop
  constructor
  · intro hcond
    have hcv : (va ((rd (selectByIndex
        (falseIndices (va ((rm (sr.map (·.segment))).inchikey)))
        (sr.map (·.segment)))).inchikey)).getD j none = some true := by
      rcases hcond with h | ⟨_, hempty⟩
      · exact h
      · exact absurd hempty hkeyne
    rw [hwrite, if_pos (by rw [beq_iff_eq]; exact hcv)]
  · intro hcond
    have hcv : ¬(va ((rd (selectByIndex
        (falseIndices (va ((rm (sr.map (·.segment))).inchikey)))
        (sr.map (·.segment)))).inchikey)).getD j none = some true := by
      intro h
      exact hcond (Or.inl h)
    rw [hwrite, if_neg (by rw [beq_iff_eq]; exact hcv)]

/-- Two-segment run where the merge fires: the primary recognizes segment
0 as "AAA" (validates) and segment 1 as "BAD" (fails validation). -/
def segResC1 : List SegResult := [⟨"g.pdf", 0, 0, 0⟩, ⟨"g.pdf", 0, 1, 1⟩]

/-- Primary recognizer stub for the merge witness. -/
def recMolC1 : List Image → RecResults :=
  fun l => ⟨l.map (fun i => if i = 0 then "AAA" else "BAD"),
    l.map (fun i => if i = 0 then "AAA" else "BAD"),
    l.map (fun i => if i = 0 then "AAA" else "BAD")⟩

/-- Complement recognizer stub for the merge witness: always "GOOD". -/
def recDecC1 : List Image → RecResults :=
  fun l => ⟨l.map (fun _ => "GOOD"), l.map (fun _ => "GOOD"),
    l.map (fun _ => "GOOD")⟩

/-- Validator stub honouring the null-for-empty contract: "AAA" and
"GOOD" validate, the empty key gives null, anything else `False`. -/
def valC1 : List String → List (Option Bool) :=
  fun keys => keys.map (fun k => if k = "" then none
    else if k = "AAA" then some true
    else if k = "GOOD" then some true
    else some false)

/-- `valC1` respects the null-for-empty contract. -/
theorem valC1_null_for_empty (keys : List String) (i : Nat) (hi : i < keys.length)
    (hk : keys.getD i "" = "") : (valC1 keys).getD i none = none := by
  have hks : keys[i] = "" := by
    rw [← hk, List.getD_eq_getElem?_getD, List.getElem?_eq_getElem hi]
    rfl
  unfold valC1
  rw [List.getD_eq_getElem?_getD, List.getElem?_map, List.getElem?_eq_getElem hi]
  simp [hks]

/-- Witness for C1: in the concrete run, candidate 0 is position 1 and
the merge overwrites it with the complement's validated "GOOD" record. -/
theorem c1_merge_policy_witness :
    ((extractMoleculesFromPdfs segResC1 recMolC1 recDecC1 valC1 true).candidates.get? 0 =
      some 1) ∧
    stateAt (extractMoleculesFromPdfs segResC1 recMolC1 recDecC1 valC1 true).merged 1 =
      (some "GOOD", some "GOOD", some "GOOD", some (some true)) := by
  have h := c1_merge_policy segResC1 recMolC1 recDecC1 valC1
    (by refine ⟨?_, ?_, ?_⟩ <;> decide)
    (fun l => by refine ⟨?_, ?_, ?_⟩ <;> simp [recDecC1])
    (fun keys => by simp [valC1])
    valC1_null_for_empty
    0 1 (by decide)
  exact ⟨by decide, (h.1 (Or.inl (by decide))).trans (by decide)⟩

/-! ## C7 — description parser -/

/-- The splitter's chunks do not depend on the running accumulator except
for the head chunk, which the accumulator prefixes. -/
theorem pySplitAux_acc (c : Char) (sep : List Char) :
    ∀ (n : Nat) (l : List Char), l.length ≤ n →
      ∃ h t, pySplitAux c sep l [] = h :: t ∧
        ∀ acc, pySplitAux c sep l acc = (acc.reverse ++ h) :: t := by
  intro n
  induction n with
  | zero =>
    intro l hl
    have hnil : l = [] := List.length_eq_zero.mp (Nat.le_zero.mp hl)
    subst hnil
    exact ⟨[], [], by simp [pySplitAux], fun acc => by simp [pySplitAux]⟩
  | succ n ih =>
    intro l hl
    cases l with
    | nil => exact ⟨[], [], by simp [pySplitAux], fun acc => by simp [pySplitAux]⟩
    | cons d rest =>
      by_cases hp : (c :: sep).isPrefixOf (d :: rest) = true
      · refine ⟨[], pySplitAux c sep (rest.drop sep.length) [], ?_, ?_⟩
        · simp [pySplitAux, hp]
        · intro acc
          simp [pySplitAux, hp]
      · obtain ⟨h, t, h1, h2⟩ := ih rest (by
          simp only [List.length_cons] at hl
          omega)
        refine ⟨d :: h, t, ?_, ?_⟩
        · simp [pySplitAux, hp, h2 [d]]
        · intro acc
          simp [pySplitAux, hp, h2 (d :: acc), List.append_assoc]

/-- `pySplitAux` with the empty accumulator yields a non-empty chunk list
whose head the accumulator would prefix. -/
theorem pySplitAux_structure (c : Char) (sep : List Char) (l : List Char) :
    ∃ h t, pySplitAux c sep l [] = h :: t ∧
      ∀ acc, pySplitAux c sep l acc = (acc.reverse ++ h) :: t :=
  pySplitAux_acc c sep l.length l (le_refl _)

/-- A non-empty separator occurs in the list iff splitting produces at
least two chunks. -/
theorem occursIn_iff_split (c : Char) (sep : List Char) (l : List Char) :
    occursIn (c :: sep) l = true ↔ 2 ≤ (pySplitAux c sep l []).length := by
  induction l with
  | nil => simp [occursIn, pySplitAux]
  | cons d rest ih =>
    by_cases hp : (c :: sep).isPrefixOf (d :: rest) = true
    · obtain ⟨h, t, h1, _⟩ := pySplitAux_structure c sep (rest.drop sep.length)
      simp [occursIn, pySplitAux, hp, h1]
    · have hstep : pySplitAux c sep (d :: rest) [] = pySplitAux c sep rest [d] := by
        simp [pySplitAux, hp]
      obtain ⟨h, t, h1, h2⟩ := pySplitAux_structure c sep rest
      rw [hstep, h2 [d]]
      simp only [occursIn, hp, Bool.false_or]
      rw [ih, h1]
      simp

/-- `pySplit` never returns the empty list. -/
theorem pySplit_ne_nil (sep s : String) : pySplit sep s ≠ [] := by
  unfold pySplit
  cases hd : sep.data with
  | nil => simp
  | cons c tl =>
    obtain ⟨h, t, h1, _⟩ := pySplitAux_structure c tl s.data
    show (pySplitAux c tl s.data []).map String.mk ≠ []
    rw [h1]
    simp

/-- For a non-empty separator, Python membership agrees with the split
producing at least two parts. -/
theorem pyIn_iff_split (sep line : String) (hsep : sep ≠ "") :
    pyIn sep line = true ↔ 2 ≤ (pySplit sep line).length := by
  unfold pyIn pySplit
  cases hd : sep.data with
  | nil =>
    exfalso
    apply hsep
    obtain ⟨data⟩ := sep
    simp only [String.data] at hd
    subst hd
    rfl
  | cons c tl =>
    rw [List.length_map]
    exact occursIn_iff_split c tl line.data

/-- The scan of `get_information_from_descriptions` agrees with the
spec-side "first line containing the separator, split at its first
occurrence" description whenever the separator is non-empty and occurs at
most once per line. -/
theorem scanLines_eq_spec (sep : String) (hsep : sep ≠ "") :
    ∀ (lines : List String),
      (∀ line ∈ lines, (pySplit sep line).length ≤ 2) →
      scanLines sep lines =
        .ok (match lines.find? (fun l => pyIn sep l) with
          | some l => splitAtFirst l sep
          | none => ("", "")) := by
  intro lines
  induction lines with
  | nil => simp [scanLines, List.find?]
  | cons line rest ih =>
    intro hocc
    by_cases hin : pyIn sep line = true
    · have h2 : 2 ≤ (pySplit sep line).length := (pyIn_iff_split sep line hsep).mp hin
      have hle : (pySplit sep line).length ≤ 2 := hocc line (by simp)
      obtain ⟨a, b, hab⟩ : ∃ a b, pySplit sep line = [a, b] := by
        cases hps : pySplit sep line with
        | nil => rw [hps] at h2; simp at h2
        | cons x xs =>
          cases xs with
          | nil => rw [hps] at h2; simp at h2
          | cons y ys =>
            cases ys with
            | nil => exact ⟨x, y, rfl⟩
            | cons z zs =>
              rw [hps] at hle
              simp at hle
      rw [scanLines, if_pos hin, if_neg hsep, hab, List.find?_cons_of_pos _ hin]
      show Except.ok (a, b) = Except.ok (splitAtFirst line sep)
      simp [splitAtFirst, hab, joinWith]
    · rw [scanLines, if_neg hin, List.find?_cons_of_neg _ hin]
      exact ih (fun l hl => hocc l (by simp [hl]))

/-- One description parses to exactly the spec-side name/target pair. -/
theorem getInfoOne_eq_spec (sep d : String) (hsep : sep ≠ "")
    (hocc : ∀ line ∈ pySplit "\n" d, (pySplit sep line).length ≤ 2) :
    getInfoOne sep d = .ok (specNameTarget sep d) := by
  unfold getInfoOne specNameTarget
  rw [scanLines_eq_spec sep hsep _ hocc]
  have hlen1 : 1 ≤ (pySplit "\n" d).length := by
    cases hps : pySplit "\n" d with
    | nil => exact absurd hps (pySplit_ne_nil "\n" d)
    | cons x xs => simp
  cases hf : (pySplit "\n" d).find? (fun l => pyIn sep l) with
  | none =>
    simp only [bind, Except.bind, pure, Except.pure, if_true]
    rw [if_pos hlen1]
  | some l =>
    simp only [bind, Except.bind, pure, Except.pure]
    by_cases hn : (splitAtFirst l sep).1 = ""
    · rw [if_pos hn, if_pos hn, if_pos hlen1]
    · rw [if_neg hn, if_neg hn]

/-- The whole description loop parses to the spec-side pairs. -/
theorem getInfoList_eq_spec (sep : String) (hsep : sep ≠ "") :
    ∀ (descrs : List String),
      (∀ d ∈ descrs, ∀ line ∈ pySplit "\n" d, (pySplit sep line).length ≤ 2) →
      getInfoList sep descrs = .ok (descrs.map (specNameTarget sep)) := by
  intro descrs
  induction descrs with
  | nil => intro _; rfl
  | cons d rest ih =>
    intro hocc
    rw [getInfoList]
    rw [getInfoOne_eq_spec sep d hsep (hocc d (by simp))]
    rw [show (getInfoList sep rest) = .ok (rest.map (specNameTarget sep)) from
      ih (fun x hx => hocc x (by simp [hx]))]
    rfl

/-- C7 counterexample: the claim promises no failure mode, but a
description whose line holds the separator twice makes the 2-name tuple
unpacking raise `ValueError`, which aborts the whole call. -/
theorem c7_two_separators_raise :
    getInformationFromDescriptions ["a|b|c"] "|" =
      .error "ValueError: too many values to unpack (expected 2)" := by
  simp [getInformationFromDescriptions, getInfoList, getInfoOne, scanLines, pyIn,
    occursIn, pySplit, pySplitAux, List.isPrefixOf, bind, Except.bind]

/-- C7 amended: for a non-empty separator and descriptions in which no
line contains the separator more than once, parsing returns without
raising one name/target pair per description: the first line containing
the separator is split at its only occurrence into (name, target) and
scanning stops; if no line contains the separator — or the split name is
the empty string — line 0 becomes the name and line 1 (when present) the
target, the split target surviving when there is no second line;
otherwise both remain empty strings. -/
theorem c7_parser_amended (descriptions : List String) (sep : String)
    (hsep : sep ≠ "")
    (hocc : ∀ d ∈ descriptions, ∀ line ∈ pySplit "\n" d,
      (pySplit sep line).length ≤ 2) :
    getInformationFromDescriptions descriptions sep =
      .ok ⟨descriptions,
        descriptions.map (fun d => (specNameTarget sep d).1),
        descriptions.map (fun d => (specNameTarget sep d).2)⟩ := by
  unfold getInformationFromDescriptions
  rw [getInfoList_eq_spec sep hsep descriptions hocc]
  simp only [bind, Except.bind, pure, Except.pure, List.map_map]
  rfl

/-- Witness for C7's amended statement on concrete descriptions of both
shapes (separator present, separator absent). -/
theorem c7_parser_amended_witness :
    getInformationFromDescriptions ["Aspirin|COX enzyme\nextra", "TwoLines\nTarget"] "|" =
      .ok ⟨["Aspirin|COX enzyme\nextra", "TwoLines\nTarget"],
        ["Aspirin", "TwoLines"], ["COX enzyme", "Target"]⟩ := by
  have h := c7_parser_amended ["Aspirin|COX enzyme\nextra", "TwoLines\nTarget"] "|"
    (by decide)
    (by
      intro d hd line hline
      simp only [List.mem_cons, List.not_mem_nil, or_false] at hd
      rcases hd with rfl | rfl <;>
        · simp [pySplit, pySplitAux, List.isPrefixOf] at hline ⊢
          rcases hline with rfl | rfl <;>
            simp [pySplit, pySplitAux, List.isPrefixOf])
  rw [h]
  simp [specNameTarget, splitAtFirst, joinWith, pyIn, occursIn, pySplit, pySplitAux,
    List.isPrefixOf]

end DrugHunter
